import Mathlib

/-!
Shallow embedding of src/subliminal/providers/napiprojekt.py.

The module has one pure algorithm (get_subhash), a subtitle record class
(NapiProjektSubtitle) with a content setter that normalizes converted
text, and a provider (NapiProjektProvider) with query / list_subtitles /
get_matches.  Network transport, charset detection and the ffmpeg
transcoding step are external collaborators; they are modelled as
function parameters (a response body per request, and a conversion
oracle from raw payload bytes to converted text).  Fallible Python
operations (IndexError on hash[i], ValueError from int(s, 16)) are
modelled with Option.
-/

namespace Napiprojekt

/-- Hexadecimal value of one character, as Python int(c, 16) accepts it:
decimal digits, lowercase a-f and uppercase A-F.  none otherwise. -/
def hexVal? (c : Char) : Option Nat :=
  let n := c.toNat
  if 48 ≤ n ∧ n ≤ 57 then some (n - 48)
  else if 97 ≤ n ∧ n ≤ 102 then some (n - 87)
  else if 65 ≤ n ∧ n ≤ 70 then some (n - 55)
  else none

/-- Accumulator loop of the hex-string parser. -/
def parseHexCore : Nat → List Char → Option Nat
  | acc, [] => some acc
  | acc, c :: cs =>
    match hexVal? c with
    | none => none
    | some d => parseHexCore (16 * acc + d) cs

/-- Model of Python int(s, 16) on plain hex-digit strings: fails on the
empty string (as int does) and on any non-hex character. -/
def parseHex? (cs : List Char) : Option Nat :=
  match cs with
  | [] => none
  | _ => parseHexCore 0 cs

/-- The idx table of get_subhash: [0xE, 0x3, 0x6, 0x8, 0x2]. -/
def subhashIdx : List Nat := [14, 3, 6, 8, 2]

/-- The mul table of get_subhash. -/
def subhashMul : List Nat := [2, 2, 5, 4, 3]

/-- The add table of get_subhash: [0, 0xD, 0x10, 0xB, 0x5]. -/
def subhashAdd : List Nat := [0, 13, 16, 11, 5]

/-- One iteration of the loop body of get_subhash:
t = a + int(hash[i], 16); v = int(hash[t : t + 2], 16);
the appended character is the last character of the lowercase hex
rendering of v * m, i.e. the hex digit of (v * m) % 16.
Python raises IndexError when i is out of range and ValueError when the
slice hash[t : t + 2] is empty or non-hex; both become none. -/
def subhashStep (hash : List Char) (i a m : Nat) : Option Char :=
  match hash[i]? with
  | none => none
  | some c =>
    match hexVal? c with
    | none => none
    | some d =>
      match parseHex? ((hash.drop (a + d)).take 2) with
      | none => none
      | some v => some (Nat.digitChar ((v * m) % 16))

/-- The for-loop of get_subhash over the zipped tables, collecting the
five characters in order. -/
def subhashLoop (hash : List Char) : List (Nat × Nat × Nat) → Option (List Char)
  | [] => some []
  | (i, a, m) :: rest =>
    match subhashStep hash i a m with
    | none => none
    | some c =>
      match subhashLoop hash rest with
      | none => none
      | some cs => some (c :: cs)

/-- get_subhash from the source: derive the 5-character subhash from the
napiprojekt hash.  none models an uncaught IndexError / ValueError. -/
def get_subhash (hash : String) : Option String :=
  (subhashLoop hash.data (subhashIdx.zip (subhashAdd.zip subhashMul))).map
    fun b => String.mk b

/-- Specification-side total reading of the hex digit at position i
(default 0 outside the precondition). -/
def specDigit (hash : List Char) (i : Nat) : Nat :=
  (hexVal? (hash.getD i '0')).getD 0

/-- Specification-side offset t of one step: additive offset plus the hex
digit read at the index position. -/
def specT (hash : List Char) (i a : Nat) : Nat :=
  a + specDigit hash i

/-- Specification-side two-character hex read at [t, t+2), as an integer
in [0, 255]. -/
def specV (hash : List Char) (t : Nat) : Nat :=
  16 * specDigit hash t + specDigit hash (t + 1)

/-- Specification-side character of one step: last character of the
lowercase hexadecimal representation of v * m. -/
def specChar (hash : List Char) (i a m : Nat) : Char :=
  Nat.digitChar ((specV hash (specT hash i a) * m) % 16)

/-- deriveSubHash as the specification words it: five steps over the
fixed index / multiplier / additive-offset tables, concatenated. -/
def deriveSubHashSpec (hash : String) : String :=
  String.mk
    [specChar hash.data 14 0 2, specChar hash.data 3 13 2,
     specChar hash.data 6 16 5, specChar hash.data 8 11 4,
     specChar hash.data 2 5 3]

/-- Precondition of one step of get_subhash: the index position is in
bounds and holds a hex digit, and both characters of the two-character
read at [t, t+2) are in bounds and are hex digits. -/
def stepOk (hash : List Char) (i a : Nat) : Bool :=
  match hash[i]? with
  | none => false
  | some c =>
    match hexVal? c with
    | none => false
    | some d =>
      match hash[a + d]?, hash[a + d + 1]? with
      | some c1, some c2 => (hexVal? c1).isSome && (hexVal? c2).isSome
      | _, _ => false

/-- Precondition of get_subhash, per the specification: every computed
offset t and t+1 lies within bounds and every character read is a valid
hex digit. -/
def wellFormed (hash : String) : Bool :=
  stepOk hash.data 14 0 && stepOk hash.data 3 13 && stepOk hash.data 6 16 &&
    stepOk hash.data 8 11 && stepOk hash.data 2 5




/-- NapiProjektSubtitle: language and hash are set at construction,
_content starts as None and is filled by the content setter.  The
decoded converted text is modelled as a String (its UTF-8 encoding is a
faithful wrapper). -/
structure NapiProjektSubtitle where
  language : String
  hash : String
  content : Option String
  deriving DecidableEq, Repr

/-- First normalization of the content setter, the substitution
re.sub of the anchored pattern caret-slash-(.*) by the template
less-i-greater backslash-1 less-backslash-slash-i-greater: without
re.MULTILINE the caret matches only at the very start of the string,
dot does not match a newline, and the unknown escape backslash-slash in
the replacement template is left alone, so the inserted closing tag
contains a literal backslash before the slash. -/
def italicsSub (cs : List Char) : List Char :=
  match cs with
  | '/' :: rest =>
    ('<' :: 'i' :: '>' :: rest.takeWhile (fun c => c != '\n')) ++
      ('<' :: '\\' :: '/' :: 'i' :: '>' :: rest.dropWhile (fun c => c != '\n'))
  | _ => cs

/-- Second normalization of the content setter, the substitution of
every occurrence of the two-character sequence backslash-r by the empty
string, scanning left to right without overlap. -/
def removeBackslashR : List Char → List Char
  | '\\' :: 'r' :: rest => removeBackslashR rest
  | c :: rest => c :: removeBackslashR rest
  | [] => []

/-- The two textual normalizations applied, in source order, to the text
read back from the converted file. -/
def normalizeContent (s : String) : String :=
  String.mk (removeBackslashR (italicsSub s.data))

/-- The content property setter: a None payload returns immediately
leaving the record unchanged; otherwise charset detection, transcoding
and file round-trips (external collaborators, modelled by the convert
oracle from payload bytes to converted text) produce a text that is
normalized and stored as the content. -/
def setContent (convert : List Nat → String) (sub : NapiProjektSubtitle)
    (c : Option (List Nat)) : NapiProjektSubtitle :=
  match c with
  | none => sub
  | some raw => { sub with content := some (normalizeContent (convert raw)) }

/-- The 4-byte sentinel b"NPc0" as byte values. -/
def sentinelNPc0 : List Nat := [78, 80, 99, 48]

/-- NapiProjektProvider.query on the body of a successful response:
if the first four bytes of the body equal b"NPc0" return None, else
construct a subtitle with the requested language and hash and assign
the whole body to its content setter. -/
def query (convert : List Nat → String) (language hash : String)
    (body : List Nat) : Option NapiProjektSubtitle :=
  if body.take 4 = sentinelNPc0 then none
  else
    some (setContent convert
      { language := language, hash := hash, content := none } (some body))

/-- The part of a video that this provider reads: the mapping from
hash scheme name to hash value. -/
structure Video where
  hashes : List (String × String)

/-- The inner list comprehension of list_subtitles: one query per
requested language, each reading the napiprojekt entry of the video
hashes; a missing entry is a KeyError, modelled as none.  The responses
oracle gives the body the server returns for each language. -/
def queryAll (convert : List Nat → String) (responses : String → List Nat)
    (video : Video) : List String → Option (List (Option NapiProjektSubtitle))
  | [] => some []
  | l :: ls =>
    match video.hashes.lookup "napiprojekt" with
    | none => none
    | some h =>
      match queryAll convert responses video ls with
      | none => none
      | some rest => some (query convert l h (responses l) :: rest)

/-- NapiProjektProvider.list_subtitles: run the per-language queries and
keep the results that are not None, in order. -/
def list_subtitles (convert : List Nat → String) (responses : String → List Nat)
    (video : Video) (languages : List String) :
    Option (List NapiProjektSubtitle) :=
  (queryAll convert responses video languages).map fun qs => qs.filterMap id

/-- NapiProjektSubtitle.get_matches: start from the empty set and add
the tag "hash" exactly when the video hashes contain a napiprojekt
entry equal to the subtitle hash. -/
def get_matches (sub : NapiProjektSubtitle) (video : Video) : Finset String :=
  if video.hashes.lookup "napiprojekt" = some sub.hash then {"hash"} else ∅







theorem drop_take_two {hash : List Char} {t : Nat} {c1 c2 : Char}
    (h1 : hash[t]? = some c1) (h2 : hash[t + 1]? = some c2) :
    (hash.drop t).take 2 = [c1, c2] := by
  obtain ⟨ht, he1⟩ := List.getElem?_eq_some_iff.mp h1
  obtain ⟨ht2, he2⟩ := List.getElem?_eq_some_iff.mp h2
  rw [List.drop_eq_getElem_cons ht, List.drop_eq_getElem_cons ht2, he1, he2]
  rfl

theorem specDigit_eq {hash : List Char} {i : Nat} {c : Char} {d : Nat}
    (hc : hash[i]? = some c) (hd : hexVal? c = some d) :
    specDigit hash i = d := by
  simp [specDigit, hc, hd]

theorem parseHex_pair {c1 c2 : Char} {d1 d2 : Nat}
    (h1 : hexVal? c1 = some d1) (h2 : hexVal? c2 = some d2) :
    parseHex? [c1, c2] = some (16 * d1 + d2) := by
  show parseHexCore 0 [c1, c2] = some (16 * d1 + d2)
  simp [parseHexCore, h1, h2]

theorem subhashStep_spec {hash : List Char} {i a : Nat} (m : Nat)
    (h : stepOk hash i a = true) :
    subhashStep hash i a m = some (specChar hash i a m) := by
  unfold stepOk at h
  cases hc : hash[i]? with
  | none => simp [hc] at h
  | some c =>
    simp only [hc] at h
    cases hd : hexVal? c with
    | none => simp [hd] at h
    | some d =>
      simp only [hd] at h
      cases hc1 : hash[a + d]? with
      | none => simp [hc1] at h
      | some c1 =>
        cases hc2 : hash[a + d + 1]? with
        | none => simp [hc1, hc2] at h
        | some c2 =>
          simp only [hc1, hc2, Bool.and_eq_true, Option.isSome_iff_exists] at h
          obtain ⟨⟨d1, hd1⟩, d2, hd2⟩ := h
          have hpair : parseHex? ((hash.drop (a + d)).take 2) = some (16 * d1 + d2) := by
            rw [drop_take_two hc1 hc2]
            exact parseHex_pair hd1 hd2
          simp [subhashStep, hc, hd, hpair, specChar, specT, specV,
            specDigit_eq hc hd, specDigit_eq hc1 hd1, specDigit_eq hc2 hd2]

theorem get_subhash_eq_of_wellFormed {hash : String} (h : wellFormed hash = true) :
    get_subhash hash = some (deriveSubHashSpec hash) := by
  simp only [wellFormed, Bool.and_eq_true] at h
  obtain ⟨⟨⟨⟨h1, h2⟩, h3⟩, h4⟩, h5⟩ := h
  have hz : subhashIdx.zip (subhashAdd.zip subhashMul) =
      [(14, 0, 2), (3, 13, 2), (6, 16, 5), (8, 11, 4), (2, 5, 3)] := rfl
  simp [get_subhash, hz, subhashLoop, deriveSubHashSpec,
    subhashStep_spec 2 h1, subhashStep_spec 2 h2, subhashStep_spec 5 h3,
    subhashStep_spec 4 h4, subhashStep_spec 3 h5]

/-- C1: for every input hash satisfying the precondition, get_subhash
computes its result by the fixed five-step algorithm over the tables
idx = [14, 3, 6, 8, 2], mul = [2, 2, 5, 4, 3], add = [0, 13, 16, 11, 5]:
read the hex digit at idx, add the offset to get t, read the
two-character hex substring at [t, t+2) as v, and take the last
character of the lowercase hex representation of v * mul, concatenating
the five characters in order. -/
theorem get_subhash_five_step_algorithm (hash : String)
    (h : wellFormed hash = true) :
    get_subhash hash = some (deriveSubHashSpec hash) :=
  get_subhash_eq_of_wellFormed h

/-- Witness for C1 at a 32-character hash: the precondition holds and
the theorem applies. -/
theorem get_subhash_five_step_algorithm_witness :
    wellFormed "a1b2c3d4e5f6a7b8c9d0e1f2a3b4c5d6" = true ∧
    get_subhash "a1b2c3d4e5f6a7b8c9d0e1f2a3b4c5d6" =
      some (deriveSubHashSpec "a1b2c3d4e5f6a7b8c9d0e1f2a3b4c5d6") :=
  ⟨by decide, get_subhash_five_step_algorithm _ (by decide)⟩

/-- C6: for every input hash satisfying the precondition, get_subhash is
total: it does not fail and returns a 5-character string. -/
theorem get_subhash_total (hash : String) (h : wellFormed hash = true) :
    ∃ s, get_subhash hash = some s ∧ s.length = 5 :=
  ⟨deriveSubHashSpec hash, get_subhash_eq_of_wellFormed h, rfl⟩

/-- Witness for C6 at a 32-character hash. -/
theorem get_subhash_total_witness :
    wellFormed "a1b2c3d4e5f6a7b8c9d0e1f2a3b4c5d6" = true ∧
    ∃ s, get_subhash "a1b2c3d4e5f6a7b8c9d0e1f2a3b4c5d6" = some s ∧ s.length = 5 :=
  ⟨by decide, get_subhash_total _ (by decide)⟩

/-- Counterexample to C3: on the 16-character input "0123456789abcdef"
get_subhash does not succeed at all (Python raises ValueError), so it
does not yield any 5-character string. -/
theorem get_subhash_16char_fails : get_subhash "0123456789abcdef" = none := by
  decide

/-- C3 as amended: on the input "0123456789abcdef" get_subhash fails:
the step with index 3 and offset 13 computes t = 13 + 3 = 16, the
two-character read at [16, 18) falls entirely outside the 16-character
string, and hex-parsing the empty slice fails. -/
theorem get_subhash_16char_fail_reason :
    get_subhash "0123456789abcdef" = none ∧
    subhashStep "0123456789abcdef".data 3 13 2 = none ∧
    ("0123456789abcdef".data.drop 16).take 2 = [] := by
  refine ⟨by decide, by decide, by decide⟩

theorem query_not_sentinel {convert : List Nat → String} {language hash : String}
    {body : List Nat} (h : body.take 4 ≠ sentinelNPc0) :
    query convert language hash body =
      some { language := language, hash := hash,
             content := some (normalizeContent (convert body)) } := by
  simp [query, h, setContent]

/-- C2: for every response body whose first four bytes equal the ASCII
sentinel NPc0, query returns none, regardless of the remaining bytes. -/
theorem query_sentinel_returns_none (convert : List Nat → String)
    (language hash : String) (rest : List Nat) :
    query convert language hash (sentinelNPc0 ++ rest) = none := by
  simp [query, sentinelNPc0]

/-- C5: for every response body not starting with the sentinel, query
returns a record whose hash and language equal the request arguments
and whose content is populated by the payload-to-content derivation
(decode and transcode via the convert oracle, then normalize). -/
theorem query_hit_returns_record (convert : List Nat → String)
    (language hash : String) (body : List Nat)
    (h : body.take 4 ≠ sentinelNPc0) :
    query convert language hash body =
      some { language := language, hash := hash,
             content := some (normalizeContent (convert body)) } :=
  query_not_sentinel h

/-- Witness for C5 on the body [1, 2, 3]. -/
theorem query_hit_returns_record_witness :
    ([1, 2, 3] : List Nat).take 4 ≠ sentinelNPc0 ∧
    query (fun _ => "x") "pl" "abc" [1, 2, 3] =
      some { language := "pl", hash := "abc",
             content := some (normalizeContent "x") } :=
  ⟨by decide, query_hit_returns_record _ _ _ _ (by decide)⟩

/-- C10: for every response body shorter than 4 bytes, the sentinel
comparison fails, so query treats the body as a hit and returns a
record with content derived from that short payload. -/
theorem query_short_body_is_hit (convert : List Nat → String)
    (language hash : String) (body : List Nat) (h : body.length < 4) :
    query convert language hash body =
      some { language := language, hash := hash,
             content := some (normalizeContent (convert body)) } := by
  apply query_not_sentinel
  intro heq
  have hl : (body.take 4).length = 4 := by rw [heq]; rfl
  rw [List.length_take] at hl
  omega

/-- Witness for C10 on the empty body. -/
theorem query_short_body_is_hit_witness :
    ([] : List Nat).length < 4 ∧
    query (fun _ => "") "pl" "abc" [] =
      some { language := "pl", hash := "abc",
             content := some (normalizeContent "") } :=
  ⟨by decide, query_short_body_is_hit _ _ _ _ (by decide)⟩

theorem queryAll_eq_map {convert : List Nat → String}
    {responses : String → List Nat} {video : Video} {h : String}
    (hh : video.hashes.lookup "napiprojekt" = some h) (languages : List String) :
    queryAll convert responses video languages =
      some (languages.map fun l => query convert l h (responses l)) := by
  induction languages with
  | nil => rfl
  | cons l ls ih => simp [queryAll, hh, ih]

theorem filterMap_map_some_sublist {α β : Type} (f : α → Option β) (l : List α) :
    ((l.filterMap f).map some).Sublist (l.map f) := by
  induction l with
  | nil => simp
  | cons a l ih =>
    cases hfa : f a with
    | none =>
      simp only [List.filterMap_cons, hfa, List.map_cons]
      exact ih.cons _
    | some b =>
      simp only [List.filterMap_cons, hfa, List.map_cons]
      exact ih.cons₂ _

/-- C7: for every video carrying a napiprojekt hash and every language
list, list_subtitles issues one query per requested language with that
hash, keeps exactly the non-absent results, and its output preserves
the relative order of the input language list (the results, wrapped in
some, form a sublist of the per-language query outcomes). -/
theorem list_subtitles_order (convert : List Nat → String)
    (responses : String → List Nat) (video : Video) (languages : List String)
    (h : String) (hh : video.hashes.lookup "napiprojekt" = some h) :
    list_subtitles convert responses video languages =
      some (languages.filterMap fun l => query convert l h (responses l)) ∧
    ((languages.filterMap fun l => query convert l h (responses l)).map some).Sublist
      (languages.map fun l => query convert l h (responses l)) := by
  constructor
  · simp [list_subtitles, queryAll_eq_map hh, List.filterMap_map, Function.comp]
  · exact filterMap_map_some_sublist _ _

/-- Witness for C7: two languages, one video with a napiprojekt hash. -/
theorem list_subtitles_order_witness :
    (Video.mk [("napiprojekt", "abc")]).hashes.lookup "napiprojekt" = some "abc" ∧
    (list_subtitles (fun _ => "x") (fun _ => [1]) (Video.mk [("napiprojekt", "abc")])
        ["pl", "en"] =
      some (["pl", "en"].filterMap fun l =>
        query (fun _ => "x") l "abc" ((fun _ => ([1] : List Nat)) l)) ∧
    ((["pl", "en"].filterMap fun l =>
        query (fun _ => "x") l "abc" ((fun _ => ([1] : List Nat)) l)).map some).Sublist
      (["pl", "en"].map fun l =>
        query (fun _ => "x") l "abc" ((fun _ => ([1] : List Nat)) l))) :=
  ⟨by decide, list_subtitles_order _ _ _ _ _ (by decide)⟩

/-- C8: get_matches returns the singleton set containing "hash" exactly
when the video exposes a napiprojekt hash equal to the record hash, and
the empty set in every other case. -/
theorem get_matches_hash_iff (sub : NapiProjektSubtitle) (video : Video) :
    (get_matches sub video = {"hash"} ↔
      video.hashes.lookup "napiprojekt" = some sub.hash) ∧
    (video.hashes.lookup "napiprojekt" ≠ some sub.hash →
      get_matches sub video = ∅) := by
  unfold get_matches
  by_cases hc : video.hashes.lookup "napiprojekt" = some sub.hash
  · simp [hc]
  · simp [hc]
    exact fun he => Finset.singleton_ne_empty _ he.symm

/-- Witness for C8 at a video with no hashes: the match set is empty. -/
theorem get_matches_hash_iff_witness :
    (Video.mk []).hashes.lookup "napiprojekt" ≠
      some (NapiProjektSubtitle.mk "pl" "abc" none).hash ∧
    get_matches (NapiProjektSubtitle.mk "pl" "abc" none) (Video.mk []) = ∅ :=
  ⟨by decide, (get_matches_hash_iff (NapiProjektSubtitle.mk "pl" "abc" none)
    (Video.mk [])).2 (by decide)⟩

/-- C9: assigning an absent payload through the content setter leaves
the record unchanged (in particular its content), and the setter never
modifies the hash or the language fields. -/
theorem setContent_frame (convert : List Nat → String)
    (sub : NapiProjektSubtitle) :
    setContent convert sub none = sub ∧
    ∀ c, (setContent convert sub c).hash = sub.hash ∧
      (setContent convert sub c).language = sub.language := by
  refine ⟨rfl, fun c => ?_⟩
  cases c <;> exact ⟨rfl, rfl⟩

/-- Counterexample to C4: the normalization turns the text "/hello"
into a string with a literal backslash inside the closing tag, not into
the claimed string, and a line starting with a slash that is not at the
very start of the text is left unchanged. -/
theorem normalize_italics_counterexample :
    normalizeContent "/hello" ≠ "<i>hello</i>" ∧
    normalizeContent "a\n/hello" = "a\n/hello" := by
  refine ⟨by decide, by decide⟩

theorem takeWhile_dropWhile_line {line : List Char} (rest : List Char)
    (h : line.all (fun c => c != '\n') = true) :
    (line ++ '\n' :: rest).takeWhile (fun c => c != '\n') = line ∧
    (line ++ '\n' :: rest).dropWhile (fun c => c != '\n') = '\n' :: rest := by
  induction line with
  | nil => exact ⟨rfl, rfl⟩
  | cons c cs ih =>
    simp only [List.all_cons, Bool.and_eq_true] at h
    obtain ⟨hc, hcs⟩ := h
    have hr := ih hcs
    simp [List.takeWhile_cons, List.dropWhile_cons, hc, hr.1, hr.2]

/-- C4 as amended: the italics substitution is anchored at the start of
the whole text, not applied per line, and its replacement inserts the
five characters less-than backslash slash i greater-than as the closing
tag; so a text starting with a slash has the remainder of its first
line wrapped between those tags, later lines are untouched, and in
particular the text "/hello" normalizes to "<i>hello<\\/i>". -/
theorem normalize_italics_amended (line rest : List Char)
    (h : line.all (fun c => c != '\n') = true) :
    normalizeContent "/hello" = "<i>hello<\\/i>" ∧
    italicsSub ('/' :: (line ++ '\n' :: rest)) =
      ('<' :: 'i' :: '>' :: line) ++
        ('<' :: '\\' :: '/' :: 'i' :: '>' :: '\n' :: rest) := by
  refine ⟨by decide, ?_⟩
  have ht := takeWhile_dropWhile_line rest h
  simp [italicsSub, ht.1, ht.2]

/-- Witness for C4 as amended, at line "he" and tail "/llo". -/
theorem normalize_italics_amended_witness :
    ("he".data.all (fun c => c != '\n') = true) ∧
    (normalizeContent "/hello" = "<i>hello<\\/i>" ∧
     italicsSub ('/' :: ("he".data ++ '\n' :: "/llo".data)) =
       ('<' :: 'i' :: '>' :: "he".data) ++
         ('<' :: '\\' :: '/' :: 'i' :: '>' :: '\n' :: "/llo".data)) :=
  ⟨by decide, normalize_italics_amended _ _ (by decide)⟩

end Napiprojekt
